import Mathlib

set_option linter.unusedVariables false
set_option linter.unreachableTactic false
set_option linter.unusedTactic false

/-!
Verification of the anchor generation, matching and target encoding pipeline
of the tf-rpn repository (src/rpn.py).  Numeric code that NumPy runs on
float32 is modelled over an arbitrary linear ordered field (instantiated at
the rationals for concrete evaluations and at the reals where the source
uses transcendental functions: sqrt, exp, log).  A float NaN arising from a
0/0 division is modelled as the Option value none.  Fallible NumPy calls
(argmax over an empty axis, integer division by zero) are modelled with
Except.
-/

/-- A box in the normalized coordinate order used throughout rpn.py:
y1 (top), x1 (left), y2 (bottom), x2 (right). -/
structure Box (α : Type) where
  y1 : α
  x1 : α
  y2 : α
  x2 : α
deriving DecidableEq

variable {α : Type} [LinearOrderedField α]

/-- Embedding of rpn.py calculate_iou (lines 22-46).  The early return 0.0
fires when the candidate intersection is empty on either axis; otherwise the
code divides intersection by union with no zero guard.  A 0/0 division
(union area exactly zero, which NumPy turns into NaN) is modelled as none. -/
def calculate_iou (anc gt : Box α) : Option α :=
  let gt_width := gt.x2 - gt.x1
  let gt_height := gt.y2 - gt.y1
  let gt_area := gt_width * gt_height
  let anc_width := anc.x2 - anc.x1
  let anc_height := anc.y2 - anc.y1
  let anc_area := anc_width * anc_height
  let x_top := max gt.x1 anc.x1
  let y_top := max gt.y1 anc.y1
  let x_bottom := min gt.x2 anc.x2
  let y_bottom := min gt.y2 anc.y2
  if x_bottom < x_top ∨ y_bottom < y_top then some 0
  else
    let intersection_area := (x_bottom - x_top) * (y_bottom - y_top)
    let union_area := gt_area + anc_area - intersection_area
    if union_area = 0 then none else some (intersection_area / union_area)

/-- Embedding of rpn.py generate_iou_map (lines 48-56): the dense N x M IoU
matrix, one row per anchor, one column per ground truth box.  The sampling
theorems below never depend on individual IoU values, so the (exotic) NaN
entries from 0/0 divisions are represented by 0 here. -/
def generate_iou_map (anchors gt_boxes : List (Box α)) : List (List α) :=
  anchors.map (fun anc => gt_boxes.map (fun gt => (calculate_iou anc gt).getD 0))

/-- Helper for np.argmax: index of the first maximal element, scanning with a
running best index and value. -/
def argmaxAux [LinearOrder β] : List β → ℕ → ℕ → β → ℕ
  | [], _, bi, _ => bi
  | v :: rest, i, bi, bv =>
      if bv < v then argmaxAux rest (i + 1) i v else argmaxAux rest (i + 1) bi bv

/-- Embedding of np.argmax over a one dimensional array: the index of the
first occurrence of the maximum.  NumPy raises on an empty array; the only
empty-axis call site in rpn.py is modelled by the Except in
get_positive_and_negative_anchors, so the value at [] here is junk 0. -/
def argmaxList [LinearOrder β] : List β → ℕ
  | [] => 0
  | v :: rest => argmaxAux rest 1 0 v

/-- Column n of the IoU map: iou_map[:, n]. -/
def columnOf (iou_map : List (List α)) (n : ℕ) : List α :=
  iou_map.map (fun row => row.getD n 0)

/-- Row-wise argmax vector: iou_map.argmax(axis=1) in rpn.py line 202
(named max_indices_each_gt_box in the source). -/
def rowArgmaxes (iou_map : List (List α)) : List ℕ :=
  iou_map.map argmaxList

/-- Insert an index into a list sorted by nonincreasing key, keeping it after
any earlier index with an equal key. -/
def insertDesc (key : ℕ → WithTop α) (x : ℕ) : List ℕ → List ℕ
  | [] => [x]
  | y :: ys => if key y < key x then x :: y :: ys else y :: insertDesc key x ys

/-- Sort indices by nonincreasing key.  This models
masked_merged_iou_map.argsort()[::-1] in rpn.py line 214: np.ma sorts masked
entries as the maximal fill value, so after reversal every masked (forced
positive) index precedes every unmasked one; the key maps masked indices to
the top element.  NumPy leaves the order of equal keys unspecified, and none
of the properties proved below depend on it. -/
def argsortDesc (key : ℕ → WithTop α) : List ℕ → List ℕ
  | [] => []
  | x :: xs => insertDesc key x (argsortDesc key xs)

/-- merged_iou_map of rpn.py line 204: for each anchor row, the entry at its
own row argmax, that is the row maximum. -/
def mergedMax (iou_map : List (List α)) : List α :=
  iou_map.map (fun row => row.getD (argmaxList row) 0)

/-- The mask accumulated by the loop at rpn.py lines 207-212: starting from
all False, each ground truth column that is the row argmax of at least one
anchor marks the first anchor achieving the column maximum.  Columns that no
anchor points to are skipped by the continue statement. -/
def forcedMask (iou_map : List (List α)) (M : ℕ) : List Bool :=
  (List.range M).foldl
    (fun mk n =>
      if n ∈ rowArgmaxes iou_map then mk.set (argmaxList (columnOf iou_map n)) true else mk)
    (List.replicate iou_map.length false)

/-- The sort key of the reversed masked argsort: masked (forced positive)
indices compare above every merged IoU value. -/
def sortKey (iou_map : List (List α)) (M : ℕ) : ℕ → WithTop α := fun i =>
  if (forcedMask iou_map M).getD i false then ⊤
  else (((mergedMax iou_map).getD i 0 : α) : WithTop α)

/-- sorted_anchor_indices of rpn.py lines 214-215: the first P entries of the
reversed argsort. -/
def sortedAnchorIndices (iou_map : List (List α)) (M P : ℕ) : List ℕ :=
  (argsortDesc (sortKey iou_map M) (List.range iou_map.length)).take P

/-- Core of rpn.py get_positive_and_negative_anchors (lines 197-228) once the
IoU map exists, for M = number of ground truth columns and positive budget P.
Mirrors the source line by line: the first P entries of the reversed masked
argsort become positive anchors, each paired with its own row argmax; the
negatives are the indices whose merged row maximum is strictly below 0.3,
minus the positive indices, subsampled down to the positive count when they
outnumber the positives.  np.random.choice is modelled by the deterministic
prefix of the filtered negatives; every theorem below uses only its size and
membership contract.  np.where applied to the masked comparison uses the
underlying data, so the threshold test ignores the mask. -/
def samplePosNeg (iou_map : List (List α)) (M P : ℕ) :
    List (ℕ × ℕ) × List ℕ :=
  let sorted_anchor_indices := sortedAnchorIndices iou_map M P
  let pos_anchors := sorted_anchor_indices.map (fun i => (i, (rowArgmaxes iou_map).getD i 0))
  let neg_candidates :=
    (List.range iou_map.length).filter (fun i => (mergedMax iou_map).getD i 0 < 3 / 10)
  let neg_filtered := neg_candidates.filter (fun i => i ∉ sorted_anchor_indices)
  let neg_anchors :=
    if neg_filtered.length > pos_anchors.length then neg_filtered.take pos_anchors.length
    else neg_filtered
  (pos_anchors, neg_anchors)

/-- Embedding of rpn.py get_positive_and_negative_anchors (lines 197-228).
When gt_boxes is empty and at least one anchor exists, the very first step
iou_map.argmax(axis=1) asks for the argmax of an empty row and NumPy raises
ValueError; that exception is the Except.error case. -/
def get_positive_and_negative_anchors (anchors gt_boxes : List (Box α))
    (total_pos_anchor_number : ℕ := 64) :
    Except String (List (ℕ × ℕ) × List ℕ) :=
  if gt_boxes.isEmpty ∧ ¬ anchors.isEmpty then
    Except.error "ValueError: attempt to get argmax of an empty sequence"
  else
    Except.ok (samplePosNeg (generate_iou_map anchors gt_boxes) gt_boxes.length
      total_pos_anchor_number)

/-- Decidable equality on Except, so that concrete runs of the fallible
functions can be checked by decide. -/
instance exceptDecEq {ε σ : Type} [DecidableEq ε] [DecidableEq σ] :
    DecidableEq (Except ε σ)
  | Except.error a, Except.error b =>
    if h : a = b then Decidable.isTrue (by rw [h])
    else Decidable.isFalse (by intro he; cases he; exact h rfl)
  | Except.error _, Except.ok _ => Decidable.isFalse (by intro he; cases he)
  | Except.ok _, Except.error _ => Decidable.isFalse (by intro he; cases he)
  | Except.ok a, Except.ok b =>
    if h : a = b then Decidable.isTrue (by rw [h])
    else Decidable.isFalse (by intro he; cases he; exact h rfl)

/-- The rounding function of Python: round half to even (bankers rounding),
used by rpn.py generate_base_anchors for the base anchor extents. -/
noncomputable def pyRound (x : ℝ) : ℤ :=
  if x - ⌊x⌋ = 1 / 2 then (if Even ⌊x⌋ then ⌊x⌋ else ⌊x⌋ + 1) else round x

/-- Embedding of rpn.py generate_base_anchors (lines 7-20): the outer loop
runs over scales, the inner loop over ratios; center = stride // 2 (integer
division); w = round(sqrt(scale^2 / ratio)); h = round(w * ratio); the box is
appended in the order [y_min, x_min, y_max, x_max]. -/
noncomputable def generate_base_anchors (stride : ℕ) (ratios scales : List ℝ) :
    List (Box ℝ) :=
  let center : ℝ := (stride / 2 : ℕ)
  scales.flatMap (fun scale =>
    ratios.map (fun ratio =>
      let box_area := scale ^ 2
      let w : ℝ := (pyRound (Real.sqrt (box_area / ratio)) : ℤ)
      let h : ℝ := (pyRound (w * ratio) : ℤ)
      ⟨center - h / 2, center - w / 2, center + h / 2, center + w / 2⟩))

/-- Embedding of rpn.py normalize_bboxes (lines 151-157): y coordinates are
divided by the height, x coordinates by the width. -/
def normalize_bboxes (bboxes : List (Box α)) (height width : α) : List (Box α) :=
  bboxes.map (fun b => ⟨b.y1 / height, b.x1 / width, b.y2 / height, b.x2 / width⟩)

/-- Embedding of rpn.py get_anchors (lines 159-181).  The image argument is
replaced by its height and width; output_height = height // stride and
output_width = width // stride come from get_image_params (integer floor
division, so stride = 0 raises ZeroDivisionError).  The source builds the
spatial grid with np.meshgrid(grid_y, grid_x): with the default xy indexing
this returns arrays of shape (output_width, output_height) whose C-order
ravel at flat index f holds grid_y[f mod output_height] and
grid_x[f div output_height], so the flat spatial order runs over columns in
the outer loop and rows in the inner loop.  Base anchors are the inner
(fastest) axis of the final reshape, and every coordinate is normalized by
the image height or width. -/
noncomputable def get_anchors (height width : ℕ) (anchor_ratios anchor_scales : List ℝ)
    (stride : ℕ) : Except String (List (Box ℝ)) :=
  if stride = 0 then Except.error "ZeroDivisionError: integer division or modulo by zero"
  else
    let output_height := height / stride
    let output_width := width / stride
    let height_padding : ℝ := ((height : ℝ) - (output_height * stride : ℕ)) / 2
    let width_padding : ℝ := ((width : ℝ) - (output_width * stride : ℕ)) / 2
    let base_anchors := generate_base_anchors stride anchor_ratios anchor_scales
    let grid_map : List (ℝ × ℝ) := (List.range (output_width * output_height)).map
      (fun f => (height_padding + ((f % output_height) * stride : ℕ),
                 width_padding + ((f / output_height) * stride : ℕ)))
    let anchors := grid_map.flatMap (fun yx =>
      base_anchors.map (fun b => ⟨yx.1 + b.y1, yx.2 + b.x1, yx.1 + b.y2, yx.2 + b.x2⟩))
    Except.ok (normalize_bboxes anchors (height : ℝ) (width : ℝ))

/-- A regression delta row in the column order used by rpn.py:
(delta_y, delta_x, delta_h, delta_w), matching bbox_deltas[:, 0..3]. -/
structure Delta where
  dy : ℝ
  dx : ℝ
  dh : ℝ
  dw : ℝ

/-- The all-zero delta row that np.zeros fills bbox_deltas with. -/
def zeroDelta : Delta := ⟨0, 0, 0, 0⟩

/-- One row of the delta computation in rpn.py get_deltas_from_bboxes
(lines 82-100): center offsets divided by the anchor extent and log ratios
of the extents. -/
noncomputable def deltaOfPair (anc gt : Box ℝ) : Delta :=
  let anc_width := anc.x2 - anc.x1
  let anc_height := anc.y2 - anc.y1
  let anc_ctr_x := anc.x1 + 0.5 * anc_width
  let anc_ctr_y := anc.y1 + 0.5 * anc_height
  let gt_width := gt.x2 - gt.x1
  let gt_height := gt.y2 - gt.y1
  let gt_ctr_x := gt.x1 + 0.5 * gt_width
  let gt_ctr_y := gt.y1 + 0.5 * gt_height
  ⟨(gt_ctr_y - anc_ctr_y) / anc_height, (gt_ctr_x - anc_ctr_x) / anc_width,
   Real.log (gt_height / anc_height), Real.log (gt_width / anc_width)⟩

/-- Embedding of rpn.py get_deltas_from_bboxes (lines 78-102): a zero array
with one row per anchor, whose rows at the positive anchor indices are
overwritten with the deltas toward the matched ground truth boxes.  The four
per-column fancy writes of the source amount to one row write per positive
pair; with duplicate anchor indices NumPy keeps the last write, as foldl
does here. -/
noncomputable def get_deltas_from_bboxes (anchors gt_boxes : List (Box ℝ))
    (pos_anchors : List (ℕ × ℕ)) : List Delta :=
  pos_anchors.foldl
    (fun acc p =>
      acc.set p.1 (deltaOfPair (anchors.getD p.1 ⟨0, 0, 0, 0⟩) (gt_boxes.getD p.2 ⟨0, 0, 0, 0⟩)))
    (List.replicate anchors.length zeroDelta)

/-- One row of rpn.py get_bboxes_from_deltas (lines 58-76): widths scaled by
exp of the deltas, centers shifted by the fraction deltas, then the corner
coordinates; y2 and x2 are computed as extent plus the y1 or x1 corner. -/
noncomputable def bboxOfDelta (anc : Box ℝ) (d : Delta) : Box ℝ :=
  let all_anc_width := anc.x2 - anc.x1
  let all_anc_height := anc.y2 - anc.y1
  let all_anc_ctr_x := anc.x1 + 0.5 * all_anc_width
  let all_anc_ctr_y := anc.y1 + 0.5 * all_anc_height
  let all_bbox_width := Real.exp d.dw * all_anc_width
  let all_bbox_height := Real.exp d.dh * all_anc_height
  let all_bbox_ctr_x := d.dx * all_anc_width + all_anc_ctr_x
  let all_bbox_ctr_y := d.dy * all_anc_height + all_anc_ctr_y
  let y1 := all_bbox_ctr_y - 0.5 * all_bbox_height
  let x1 := all_bbox_ctr_x - 0.5 * all_bbox_width
  ⟨y1, x1, all_bbox_height + y1, all_bbox_width + x1⟩

/-- Embedding of rpn.py get_bboxes_from_deltas (lines 58-76): the decode is
computed for every anchor row against the delta row of the same index. -/
noncomputable def get_bboxes_from_deltas (anchors : List (Box ℝ)) (deltas : List Delta) :
    List (Box ℝ) :=
  List.zipWith bboxOfDelta anchors deltas

/-- The label vector of rpn.py get_bbox_deltas_and_labels (lines 245-247):
-1 everywhere, 0 at negative anchor indices, then 1 at positive anchor
indices. -/
def labelsOf (n : ℕ) (pos_anchors : List (ℕ × ℕ)) (neg_anchors : List ℕ) : List ℝ :=
  let l0 := List.replicate n (-1 : ℝ)
  let l1 := neg_anchors.foldl (fun l i => l.set i (0 : ℝ)) l0
  pos_anchors.foldl (fun l p => l.set p.1 (1 : ℝ)) l1

/-- Embedding of rpn.py get_bbox_deltas_and_labels (lines 230-253).  The
first statement calls get_image_params, whose integer division raises
ZeroDivisionError when stride = 0; then the sampler runs (raising on an
empty ground truth list with anchors present), then the deltas and labels
are computed.  The trailing np.reshape and np.expand_dims calls only
re-index the same flat per-anchor data and are omitted here; the per-anchor
contents returned are complete. -/
noncomputable def get_bbox_deltas_and_labels (height width : ℕ)
    (anchors gt_boxes : List (Box ℝ)) (anchor_count stride : ℕ) :
    Except String (List Delta × List ℝ) :=
  if stride = 0 then Except.error "ZeroDivisionError: integer division or modulo by zero"
  else do
    let pn ← get_positive_and_negative_anchors anchors gt_boxes 64
    let bbox_deltas := get_deltas_from_bboxes anchors gt_boxes pn.1
    let labels := labelsOf anchors.length pn.1 pn.2
    Except.ok (bbox_deltas, labels)

/-! Helper lemmas about the index sort used to model the reversed argsort. -/

theorem insertDesc_perm (key : ℕ → WithTop α) (x : ℕ) :
    ∀ l : List ℕ, (insertDesc key x l).Perm (x :: l)
  | [] => List.Perm.refl _
  | y :: ys => by
    unfold insertDesc
    split
    · exact List.Perm.refl _
    · exact ((insertDesc_perm key x ys).cons y).trans (List.Perm.swap x y ys)

theorem argsortDesc_perm (key : ℕ → WithTop α) :
    ∀ l : List ℕ, (argsortDesc key l).Perm l
  | [] => List.Perm.refl _
  | x :: xs =>
    (insertDesc_perm key x (argsortDesc key xs)).trans ((argsortDesc_perm key xs).cons x)

theorem length_argsortDesc (key : ℕ → WithTop α) (l : List ℕ) :
    (argsortDesc key l).length = l.length :=
  (argsortDesc_perm key l).length_eq

theorem mem_insertDesc {key : ℕ → WithTop α} {x z : ℕ} {l : List ℕ} :
    z ∈ insertDesc key x l ↔ z = x ∨ z ∈ l := by
  rw [(insertDesc_perm key x l).mem_iff, List.mem_cons]

theorem sorted_insertDesc {key : ℕ → WithTop α} {x : ℕ} :
    ∀ {l : List ℕ}, l.Pairwise (fun a b => key b ≤ key a) →
      (insertDesc key x l).Pairwise (fun a b => key b ≤ key a) := by
  intro l
  induction l with
  | nil => intro _; exact List.pairwise_singleton _ _
  | cons y ys ih =>
    intro hp
    rw [List.pairwise_cons] at hp
    unfold insertDesc
    split
    · rename_i hlt
      refine List.pairwise_cons.mpr ⟨?_, List.pairwise_cons.mpr hp⟩
      intro z hz
      rcases List.mem_cons.mp hz with rfl | hz
      · exact le_of_lt hlt
      · exact le_trans (hp.1 z hz) (le_of_lt hlt)
    · rename_i hge
      refine List.pairwise_cons.mpr ⟨?_, ih hp.2⟩
      intro z hz
      rcases mem_insertDesc.mp hz with rfl | hz
      · exact le_of_not_lt hge
      · exact hp.1 z hz

theorem sorted_argsortDesc (key : ℕ → WithTop α) :
    ∀ l : List ℕ, (argsortDesc key l).Pairwise (fun a b => key b ≤ key a)
  | [] => List.Pairwise.nil
  | x :: xs => sorted_insertDesc (sorted_argsortDesc key xs)

/-! Helper lemmas about argmax and the forced positive mask. -/

theorem argmaxAux_lt [LinearOrder β] :
    ∀ (l : List β) (i bi : ℕ) (bv : β), bi < i → argmaxAux l i bi bv < i + l.length
  | [], i, bi, bv, h => by simpa using h
  | v :: rest, i, bi, bv, h => by
    unfold argmaxAux
    split
    · have := argmaxAux_lt rest (i + 1) i v (Nat.lt_succ_self i)
      simpa [Nat.add_assoc, Nat.add_comm 1 rest.length] using this
    · have := argmaxAux_lt rest (i + 1) bi bv (Nat.lt_succ_of_lt h)
      simpa [Nat.add_assoc, Nat.add_comm 1 rest.length] using this

theorem argmaxList_lt_length [LinearOrder β] {l : List β} (h : l ≠ []) :
    argmaxList l < l.length := by
  cases l with
  | nil => exact absurd rfl h
  | cons v rest =>
    have := argmaxAux_lt rest 1 0 v Nat.one_pos
    simpa [argmaxList, Nat.add_comm 1 rest.length] using this

theorem getD_set_self_true (mk : List Bool) {i : ℕ} (h : i < mk.length) :
    (mk.set i true).getD i false = true := by
  rw [List.getD_eq_getElem?_getD, List.getElem?_set_self h]
  rfl

theorem getD_set_true (mk : List Bool) (i x : ℕ) (h : mk.getD x false = true) :
    (mk.set i true).getD x false = true := by
  by_cases hix : i = x
  · subst hix
    by_cases hlt : i < mk.length
    · exact getD_set_self_true mk hlt
    · rwa [List.set_eq_of_length_le (Nat.le_of_not_lt hlt)]
  · rwa [List.getD_eq_getElem?_getD, List.getElem?_set_ne hix, ← List.getD_eq_getElem?_getD]

theorem getD_set_true_inv (mk : List Bool) (i x : ℕ)
    (h : (mk.set i true).getD x false = true) :
    x = i ∨ mk.getD x false = true := by
  by_cases hix : i = x
  · exact Or.inl hix.symm
  · right
    rwa [List.getD_eq_getElem?_getD, List.getElem?_set_ne hix, ← List.getD_eq_getElem?_getD] at h

theorem foldMask_length {p : ℕ → Prop} [DecidablePred p] (g : ℕ → ℕ) :
    ∀ (ls : List ℕ) (mk : List Bool),
      (ls.foldl (fun m n => if p n then m.set (g n) true else m) mk).length = mk.length
  | [], mk => rfl
  | a :: ls, mk => by
    rw [List.foldl_cons, foldMask_length g ls]
    split <;> simp

theorem foldMask_true_stable {p : ℕ → Prop} [DecidablePred p] (g : ℕ → ℕ) :
    ∀ (ls : List ℕ) (mk : List Bool) (x : ℕ), mk.getD x false = true →
      (ls.foldl (fun m n => if p n then m.set (g n) true else m) mk).getD x false = true
  | [], mk, x, h => h
  | a :: ls, mk, x, h => by
    rw [List.foldl_cons]
    refine foldMask_true_stable g ls _ x ?_
    split
    · exact getD_set_true mk (g a) x h
    · exact h

theorem foldMask_sets {p : ℕ → Prop} [DecidablePred p] (g : ℕ → ℕ) :
    ∀ (ls : List ℕ) (mk : List Bool) (n : ℕ), n ∈ ls → p n → g n < mk.length →
      (ls.foldl (fun m n => if p n then m.set (g n) true else m) mk).getD (g n) false = true
  | [], _, n, hmem, _, _ => absurd hmem (List.not_mem_nil n)
  | a :: ls, mk, n, hmem, hp, hlt => by
    rw [List.foldl_cons]
    rcases List.mem_cons.mp hmem with rfl | hmem
    · rw [if_pos hp]
      exact foldMask_true_stable g ls _ _ (getD_set_self_true mk hlt)
    · refine foldMask_sets g ls _ n hmem hp ?_
      split <;> simpa using hlt

theorem foldMask_true_source {p : ℕ → Prop} [DecidablePred p] (g : ℕ → ℕ) :
    ∀ (ls : List ℕ) (mk : List Bool) (x : ℕ),
      (ls.foldl (fun m n => if p n then m.set (g n) true else m) mk).getD x false = true →
      mk.getD x false = true ∨ ∃ n ∈ ls, x = g n
  | [], _, x, h => Or.inl h
  | a :: ls, mk, x, h => by
    rw [List.foldl_cons] at h
    rcases foldMask_true_source g ls _ x h with h1 | ⟨n, hn, rfl⟩
    · split at h1
      · rcases getD_set_true_inv mk (g a) x h1 with rfl | h2
        · exact Or.inr ⟨a, List.mem_cons_self a ls, rfl⟩
        · exact Or.inl h2
      · exact Or.inl h1
    · exact Or.inr ⟨n, List.mem_cons_of_mem a hn, rfl⟩

theorem getD_replicate_false (N x : ℕ) : (List.replicate N false).getD x false = false := by
  rw [List.getD_eq_getElem?_getD, List.getElem?_replicate]
  split <;> rfl

/-! Structural lemmas about the sampler output. -/

theorem length_generate_iou_map (anchors gt_boxes : List (Box α)) :
    (generate_iou_map anchors gt_boxes).length = anchors.length :=
  List.length_map _ _

theorem length_sortedAnchorIndices (iou_map : List (List α)) (M P : ℕ) :
    (sortedAnchorIndices iou_map M P).length = min P iou_map.length := by
  rw [sortedAnchorIndices, List.length_take, length_argsortDesc, List.length_range]

theorem samplePosNeg_fst (iou_map : List (List α)) (M P : ℕ) :
    (samplePosNeg iou_map M P).1 =
      (sortedAnchorIndices iou_map M P).map (fun i => (i, (rowArgmaxes iou_map).getD i 0)) :=
  rfl

theorem samplePosNeg_snd_not_sorted (iou_map : List (List α)) (M P : ℕ) {x : ℕ}
    (hx : x ∈ (samplePosNeg iou_map M P).2) : x ∉ sortedAnchorIndices iou_map M P := by
  have hx2 : x ∈ ((List.range iou_map.length).filter
      (fun i => (mergedMax iou_map).getD i 0 < 3 / 10)).filter
      (fun i => i ∉ sortedAnchorIndices iou_map M P) := by
    simp only [samplePosNeg] at hx
    split at hx
    · exact List.take_subset _ _ hx
    · exact hx
  have := (List.mem_filter.mp hx2).2
  simpa using this

theorem get_positive_and_negative_anchors_ok {anchors gt_boxes : List (Box α)}
    {P : ℕ} {pos : List (ℕ × ℕ)} {neg : List ℕ} (hgt : gt_boxes ≠ [])
    (h : get_positive_and_negative_anchors anchors gt_boxes P = Except.ok (pos, neg)) :
    (pos, neg) = samplePosNeg (generate_iou_map anchors gt_boxes) gt_boxes.length P := by
  rw [get_positive_and_negative_anchors, if_neg] at h
  · exact (Except.ok.inj h).symm
  · intro hc
    exact hgt (List.isEmpty_iff.mp hc.1)

/-- C10: with a non-empty ground truth list, the positive anchor list always
has exactly min(N, 64) entries, independently of the IoU values: the top of
the reversed argsort window is taken unconditionally, so anchors whose best
IoU is 0 are still labelled positive when fewer than 64 anchors overlap
anything. -/
theorem C10_pos_count_is_min (anchors gt_boxes : List (Box α)) (pos : List (ℕ × ℕ))
    (neg : List ℕ) (hgt : gt_boxes ≠ [])
    (h : get_positive_and_negative_anchors anchors gt_boxes 64 = Except.ok (pos, neg)) :
    pos.length = min anchors.length 64 := by
  have hpn := get_positive_and_negative_anchors_ok hgt h
  have hpos : pos = (samplePosNeg (generate_iou_map anchors gt_boxes) gt_boxes.length 64).1 :=
    congrArg Prod.fst hpn
  rw [hpos, samplePosNeg_fst, List.length_map, length_sortedAnchorIndices,
    length_generate_iou_map, Nat.min_comm]

/-- C10 witness: one full-image anchor against one full-image ground truth
box gives exactly min(1, 64) = 1 positive pair. -/
theorem C10_pos_count_is_min_witness :
    ([((0 : ℕ), (0 : ℕ))] : List (ℕ × ℕ)).length = min 1 64 :=
  C10_pos_count_is_min [(⟨0, 0, 1, 1⟩ : Box ℚ)] [⟨0, 0, 1, 1⟩] [(0, 0)] []
    (by with_unfolding_all decide) (by with_unfolding_all decide)

/-- C7: the positive and negative outputs of the sampler are disjoint (every
positive anchor index is absent from the negative index list) and the number
of positive anchors never exceeds the budget of 64. -/
theorem C7_sampler_invariants (anchors gt_boxes : List (Box α)) (pos : List (ℕ × ℕ))
    (neg : List ℕ) (hgt : gt_boxes ≠ [])
    (h : get_positive_and_negative_anchors anchors gt_boxes 64 = Except.ok (pos, neg)) :
    (∀ p ∈ pos, p.1 ∉ neg) ∧ pos.length ≤ 64 := by
  have hpn := get_positive_and_negative_anchors_ok hgt h
  have hpos : pos = (samplePosNeg (generate_iou_map anchors gt_boxes) gt_boxes.length 64).1 :=
    congrArg Prod.fst hpn
  have hneg : neg = (samplePosNeg (generate_iou_map anchors gt_boxes) gt_boxes.length 64).2 :=
    congrArg Prod.snd hpn
  constructor
  · intro p hp hmemneg
    rw [hpos, samplePosNeg_fst] at hp
    obtain ⟨i, hi, rfl⟩ := List.mem_map.mp hp
    rw [hneg] at hmemneg
    exact samplePosNeg_snd_not_sorted _ _ _ hmemneg hi
  · rw [hpos, samplePosNeg_fst, List.length_map, length_sortedAnchorIndices]
    exact Nat.min_le_left _ _

/-- C7 witness: the invariants instantiated on a concrete one-anchor,
one-ground-truth-box run. -/
theorem C7_sampler_invariants_witness :
    (∀ p ∈ ([((0 : ℕ), (0 : ℕ))] : List (ℕ × ℕ)), p.1 ∉ ([] : List ℕ)) ∧
      ([((0 : ℕ), (0 : ℕ))] : List (ℕ × ℕ)).length ≤ 64 :=
  C7_sampler_invariants [(⟨0, 0, 1, 1⟩ : Box ℚ)] [⟨0, 0, 1, 1⟩] [(0, 0)] []
    (by with_unfolding_all decide) (by with_unfolding_all decide)

/-- C1: the claim is that an image with zero ground truth boxes must not
throw, but on such an image iou_map.argmax(axis=1) is taken over an empty
axis and NumPy raises ValueError before any positive or negative anchor is
produced, so the pipeline fails instead of returning background targets. -/
theorem C1_zero_gt_boxes_raises :
    get_bbox_deltas_and_labels 8 8 [(⟨0, 0, 1, 1⟩ : Box ℝ)] [] 1 1 =
      Except.error "ValueError: attempt to get argmax of an empty sequence" ∧
    get_positive_and_negative_anchors [(⟨0, 0, 1, 1⟩ : Box ℝ)] [] 64 =
      Except.error "ValueError: attempt to get argmax of an empty sequence" := by
  constructor <;> rfl

/-- C2 counterexample: two coincident zero-area boxes pass the interval
test (the intersection is the degenerate point, not empty), the intersection
area is 0 and the union area is 0, so the source divides 0 by 0 and the
result is NaN (modelled none), not the claimed 0.  There is no zero-area
guard in calculate_iou. -/
theorem C2_counterexample :
    calculate_iou (⟨0, 0, 0, 0⟩ : Box ℚ) ⟨0, 0, 0, 0⟩ = none := by
  with_unfolding_all decide

/-- C2 amended: when either box has zero width or zero height, calculate_iou
returns exactly 0 unless the union area is itself zero, in which case the
0/0 division yields NaN instead of 0.  Since the intersection area of such a
pair is 0, the union area of the source equals the sum of the two box areas;
the three conjuncts pin the behavior down completely: a nonzero area sum
forces the result 0, the NaN outcome happens exactly when the intervals
intersect on both axes and the area sum is zero, and no third outcome
exists. -/
theorem C2_amended_degenerate_iou (anc gt : Box α)
    (hdeg : anc.x1 = anc.x2 ∨ anc.y1 = anc.y2 ∨ gt.x1 = gt.x2 ∨ gt.y1 = gt.y2) :
    ((gt.x2 - gt.x1) * (gt.y2 - gt.y1) + (anc.x2 - anc.x1) * (anc.y2 - anc.y1) ≠ 0 →
      calculate_iou anc gt = some 0) ∧
    (calculate_iou anc gt = none ↔
      (max gt.x1 anc.x1 ≤ min gt.x2 anc.x2 ∧ max gt.y1 anc.y1 ≤ min gt.y2 anc.y2 ∧
        (gt.x2 - gt.x1) * (gt.y2 - gt.y1) + (anc.x2 - anc.x1) * (anc.y2 - anc.y1) = 0)) ∧
    (calculate_iou anc gt = some 0 ∨ calculate_iou anc gt = none) := by
  by_cases hc : min gt.x2 anc.x2 < max gt.x1 anc.x1 ∨ min gt.y2 anc.y2 < max gt.y1 anc.y1
  · have hval : calculate_iou anc gt = some 0 := by
      simp only [calculate_iou, if_pos hc]
    refine ⟨fun _ => hval, ?_, Or.inl hval⟩
    constructor
    · intro hnone
      rw [hval] at hnone
      cases hnone
    · rintro ⟨hx, hy, _⟩
      exfalso
      rcases hc with h | h
      · exact absurd hx (not_le.mpr h)
      · exact absurd hy (not_le.mpr h)
  · have hx : max gt.x1 anc.x1 ≤ min gt.x2 anc.x2 := by
      rcases not_or.mp hc with ⟨h1, _⟩
      exact le_of_not_lt h1
    have hy : max gt.y1 anc.y1 ≤ min gt.y2 anc.y2 := by
      rcases not_or.mp hc with ⟨_, h2⟩
      exact le_of_not_lt h2
    have hinter :
        (min gt.x2 anc.x2 - max gt.x1 anc.x1) * (min gt.y2 anc.y2 - max gt.y1 anc.y1) = 0 := by
      rcases hdeg with h | h | h | h
      · have h1 : min gt.x2 anc.x2 ≤ anc.x2 := min_le_right _ _
        have h2 : anc.x1 ≤ max gt.x1 anc.x1 := le_max_right _ _
        have : min gt.x2 anc.x2 - max gt.x1 anc.x1 = 0 := by
          apply le_antisymm _ (by linarith)
          linarith
        rw [this, zero_mul]
      · have h1 : min gt.y2 anc.y2 ≤ anc.y2 := min_le_right _ _
        have h2 : anc.y1 ≤ max gt.y1 anc.y1 := le_max_right _ _
        have : min gt.y2 anc.y2 - max gt.y1 anc.y1 = 0 := by
          apply le_antisymm _ (by linarith)
          linarith
        rw [this, mul_zero]
      · have h1 : min gt.x2 anc.x2 ≤ gt.x2 := min_le_left _ _
        have h2 : gt.x1 ≤ max gt.x1 anc.x1 := le_max_left _ _
        have : min gt.x2 anc.x2 - max gt.x1 anc.x1 = 0 := by
          apply le_antisymm _ (by linarith)
          linarith
        rw [this, zero_mul]
      · have h1 : min gt.y2 anc.y2 ≤ gt.y2 := min_le_left _ _
        have h2 : gt.y1 ≤ max gt.y1 anc.y1 := le_max_left _ _
        have : min gt.y2 anc.y2 - max gt.y1 anc.y1 = 0 := by
          apply le_antisymm _ (by linarith)
          linarith
        rw [this, mul_zero]
    by_cases hu : (gt.x2 - gt.x1) * (gt.y2 - gt.y1) + (anc.x2 - anc.x1) * (anc.y2 - anc.y1) = 0
    · have hval : calculate_iou anc gt = none := by
        simp only [calculate_iou, if_neg hc, hinter, sub_zero]
        rw [if_pos hu]
      refine ⟨fun hS => absurd hu hS, ?_, Or.inr hval⟩
      constructor
      · intro _
        exact ⟨hx, hy, hu⟩
      · intro _
        exact hval
    · have hval : calculate_iou anc gt = some 0 := by
        simp only [calculate_iou, if_neg hc, hinter, sub_zero]
        rw [if_neg hu, zero_div]
      refine ⟨fun _ => hval, ?_, Or.inl hval⟩
      constructor
      · intro hnone
        rw [hval] at hnone
        cases hnone
      · rintro ⟨_, _, hS⟩
        exact absurd hS hu

/-- C2 witness: a zero-height anchor strip against a full unit ground truth
box; the area sum is 1, so the first conjunct of the amended statement gives
the definite result 0. -/
theorem C2_amended_degenerate_iou_witness :
    calculate_iou (⟨0, 0, 0, 1⟩ : Box ℚ) ⟨0, 0, 1, 1⟩ = some 0 :=
  (C2_amended_degenerate_iou (⟨0, 0, 0, 1⟩ : Box ℚ) ⟨0, 0, 1, 1⟩
    (Or.inr (Or.inl rfl))).1 (by norm_num)

/-! Lemmas about anchor generation. -/

theorem generate_base_anchors_nil_ratios (stride : ℕ) (scales : List ℝ) :
    generate_base_anchors stride [] scales = [] := by
  simp [generate_base_anchors]

theorem generate_base_anchors_nil_scales (stride : ℕ) (ratios : List ℝ) :
    generate_base_anchors stride ratios [] = [] := by
  simp [generate_base_anchors]

theorem get_anchors_of_nil_base (height width : ℕ) (ratios scales : List ℝ) (stride : ℕ)
    (hs : stride ≠ 0) (hbase : generate_base_anchors stride ratios scales = []) :
    get_anchors height width ratios scales stride = Except.ok [] := by
  simp only [get_anchors, if_neg hs, hbase]
  simp [normalize_bboxes]

theorem length_get_anchors (height width : ℕ) (ratios scales : List ℝ) (stride : ℕ)
    (hs : stride ≠ 0) :
    ∃ l, get_anchors height width ratios scales stride = Except.ok l ∧
      l.length = (height / stride) * (width / stride) * ratios.length * scales.length := by
  simp only [get_anchors, if_neg hs]
  refine ⟨_, rfl, ?_⟩
  have hbase : (generate_base_anchors stride ratios scales).length =
      scales.length * ratios.length := by
    rw [generate_base_anchors, List.length_flatMap]
    simp only [Function.comp_def, List.length_map]
    rw [List.map_const', List.sum_replicate, smul_eq_mul]
  rw [normalize_bboxes, List.length_map, List.length_flatMap]
  simp only [Function.comp_def, List.length_map, hbase]
  rw [List.map_const', List.sum_replicate, List.length_map, List.length_range, smul_eq_mul]
  ring

/-- C8 counterexample: an empty ratio list is an invalid configuration, yet
neither generate_base_anchors nor get_anchors raises any configuration
error; the per-image anchor computation runs to completion and silently
returns an empty anchor set. -/
theorem C8_counterexample :
    get_anchors 32 32 [] [(128 : ℝ)] 16 = Except.ok [] :=
  get_anchors_of_nil_base 32 32 [] [(128 : ℝ)] 16 (by decide)
    (generate_base_anchors_nil_ratios 16 [(128 : ℝ)])

/-- C8 amended: the code performs no configuration validation at all.  With
an empty ratio list or an empty scale list, per-image anchor generation runs
and silently yields an empty anchor set instead of failing fast; a zero
stride surfaces only as a ZeroDivisionError inside the per-image integer
division, not as an upfront configuration error. -/
theorem C8_amended_no_validation (height width : ℕ) (ratios scales : List ℝ) (stride : ℕ)
    (hs : stride ≠ 0) :
    get_anchors height width [] scales stride = Except.ok [] ∧
    get_anchors height width ratios [] stride = Except.ok [] ∧
    get_anchors height width ratios scales 0 =
      Except.error "ZeroDivisionError: integer division or modulo by zero" := by
  refine ⟨?_, ?_, rfl⟩
  · exact get_anchors_of_nil_base height width [] scales stride hs
      (generate_base_anchors_nil_ratios stride scales)
  · exact get_anchors_of_nil_base height width ratios [] stride hs
      (generate_base_anchors_nil_scales stride ratios)

/-- C8 witness: the amended statement instantiated at a concrete image,
scale list and stride. -/
theorem C8_amended_no_validation_witness :
    get_anchors 500 500 [] [(256 : ℝ)] 16 = Except.ok [] ∧
    get_anchors 500 500 [(2 : ℝ)] [] 16 = Except.ok [] ∧
    get_anchors 500 500 [(2 : ℝ)] [(256 : ℝ)] 0 =
      Except.error "ZeroDivisionError: integer division or modulo by zero" :=
  C8_amended_no_validation 500 500 [(2 : ℝ)] [(256 : ℝ)] 16 (by decide)

/-- C6: for any image size, positive stride and non-empty ratio and scale
lists, get_anchors succeeds and the anchor count is exactly
(height // stride) * (width // stride) * len(ratios) * len(scales), the
grid dimensions being floor divisions. -/
theorem C6_anchor_count (height width : ℕ) (ratios scales : List ℝ) (stride : ℕ)
    (hs : 0 < stride) (hr : ratios ≠ []) (hsc : scales ≠ []) :
    ∃ l, get_anchors height width ratios scales stride = Except.ok l ∧
      l.length = (height / stride) * (width / stride) * ratios.length * scales.length :=
  length_get_anchors height width ratios scales stride (Nat.pos_iff_ne_zero.mp hs)

/-- C6 witness: the spec scenario, a 800 x 600 image at stride 16 with three
ratios and three scales. -/
theorem C6_anchor_count_witness :
    ∃ l, get_anchors 800 600 [0.5, 1, 2] [(128 : ℝ), 256, 512] 16 = Except.ok l ∧
      l.length = (800 / 16) * (600 / 16) * ([(0.5 : ℝ), 1, 2]).length *
        ([(128 : ℝ), 256, 512]).length :=
  C6_anchor_count 800 600 [0.5, 1, 2] [(128 : ℝ), 256, 512] 16 (by decide)
    (List.cons_ne_nil _ _) (List.cons_ne_nil _ _)

/-! Lemmas about the Python rounding helper. -/

theorem pyRound_intCast (n : ℤ) : pyRound (n : ℝ) = n := by
  unfold pyRound
  rw [Int.floor_intCast, sub_self]
  rw [if_neg (by norm_num)]
  exact round_intCast n

theorem pyRound_nonneg {x : ℝ} (hx : 0 ≤ x) : 0 ≤ pyRound x := by
  unfold pyRound
  have h0 : (0 : ℤ) ≤ ⌊x⌋ := Int.floor_nonneg.mpr hx
  split
  · split
    · exact h0
    · omega
  · rw [round_eq]
    exact Int.floor_nonneg.mpr (by linarith)

theorem div_le_div_of_le_nonneg {a b c : ℝ} (h : a ≤ b) (hc : 0 ≤ c) : a / c ≤ b / c := by
  rcases eq_or_lt_of_le hc with h0 | h0
  · rw [← h0, div_zero, div_zero]
  · exact (div_le_div_iff_of_pos_right h0).mpr h

/-- Concrete run of the anchor generator: a 16 x 16 image at stride 16 with
ratio 1 and scale 32 yields a single anchor whose normalized coordinates
leave the interval from 0 to 1 (the base anchor is larger than the image). -/
theorem get_anchors_16_16_ratio1_scale32 :
    get_anchors 16 16 [(1 : ℝ)] [(32 : ℝ)] 16 =
      Except.ok [⟨-(1 / 2), -(1 / 2), 3 / 2, 3 / 2⟩] := by
  have h1 : Real.sqrt ((32 : ℝ) ^ 2 / 1) = 32 := by
    rw [show ((32 : ℝ) ^ 2 / 1) = 32 ^ 2 by norm_num]
    exact Real.sqrt_sq (by norm_num)
  have h2 : pyRound (32 : ℝ) = 32 := by
    rw [show (32 : ℝ) = ((32 : ℤ) : ℝ) by norm_num]
    exact pyRound_intCast 32
  have h3 : ((32 : ℤ) : ℝ) * 1 = (32 : ℝ) := by norm_num
  rw [get_anchors, if_neg (by norm_num)]
  simp only [generate_base_anchors, List.flatMap_cons, List.flatMap_nil, List.map_cons,
    List.map_nil, List.append_nil, h1, h2, h3]
  have hr1 : List.range 1 = [0] := rfl
  norm_num [normalize_bboxes, hr1, h2]

/-- C9 amended: every anchor produced by get_anchors is well ordered, top
not below bottom and left not right of right (for positive aspect ratios,
which any valid configuration has), but the coordinates are not confined to
the interval from 0 to 1: boundary anchors extend outside the image and
their normalized coordinates can be negative or exceed 1. -/
theorem C9_amended_anchor_order (height width : ℕ) (ratios scales : List ℝ) (stride : ℕ)
    (l : List (Box ℝ)) (hr : ∀ r ∈ ratios, 0 < r)
    (h : get_anchors height width ratios scales stride = Except.ok l) :
    ∀ b ∈ l, b.y1 ≤ b.y2 ∧ b.x1 ≤ b.x2 := by
  by_cases hs : stride = 0
  · rw [get_anchors, if_pos hs] at h
    cases h
  · rw [get_anchors, if_neg hs] at h
    have hl := (Except.ok.inj h).symm
    intro b hb
    rw [hl, normalize_bboxes] at hb
    obtain ⟨a, ha, rfl⟩ := List.mem_map.mp hb
    obtain ⟨yx, hyx, ha2⟩ := List.mem_flatMap.mp ha
    obtain ⟨bb, hbb, rfl⟩ := List.mem_map.mp ha2
    rw [generate_base_anchors] at hbb
    obtain ⟨scale, hscale, hbb2⟩ := List.mem_flatMap.mp hbb
    obtain ⟨ratio, hratio, rfl⟩ := List.mem_map.mp hbb2
    have hw : (0 : ℝ) ≤ (pyRound (Real.sqrt (scale ^ 2 / ratio)) : ℤ) := by
      exact_mod_cast pyRound_nonneg (Real.sqrt_nonneg _)
    have hh : (0 : ℝ) ≤
        (pyRound (((pyRound (Real.sqrt (scale ^ 2 / ratio)) : ℤ) : ℝ) * ratio) : ℤ) := by
      exact_mod_cast pyRound_nonneg (mul_nonneg hw (le_of_lt (hr ratio hratio)))
    constructor
    · exact div_le_div_of_le_nonneg (by dsimp only; linarith) (Nat.cast_nonneg height)
    · exact div_le_div_of_le_nonneg (by dsimp only; linarith) (Nat.cast_nonneg width)

/-- C9 witness: the ordering half of the data model invariant instantiated
on the concrete 16 x 16 image at stride 16 with ratio 1 and scale 32. -/
theorem C9_amended_anchor_order_witness :
    (⟨-(1 / 2), -(1 / 2), 3 / 2, 3 / 2⟩ : Box ℝ).y1 ≤
        (⟨-(1 / 2), -(1 / 2), 3 / 2, 3 / 2⟩ : Box ℝ).y2 ∧
      (⟨-(1 / 2), -(1 / 2), 3 / 2, 3 / 2⟩ : Box ℝ).x1 ≤
        (⟨-(1 / 2), -(1 / 2), 3 / 2, 3 / 2⟩ : Box ℝ).x2 :=
  C9_amended_anchor_order 16 16 [(1 : ℝ)] [(32 : ℝ)] 16 _
    (by intro r hr; rw [List.mem_singleton] at hr; rw [hr]; norm_num)
    get_anchors_16_16_ratio1_scale32 ⟨-(1 / 2), -(1 / 2), 3 / 2, 3 / 2⟩
    (List.mem_singleton.mpr rfl)

/-- C9 counterexample: the anchor produced on a 16 x 16 image at stride 16
with scale 32 has top = left = -1/2 and bottom = right = 3/2, outside the
claimed interval from 0 to 1, refuting the normalized-coordinate half of the
Box invariant for generated anchors. -/
theorem C9_counterexample :
    get_anchors 16 16 [(1 : ℝ)] [(32 : ℝ)] 16 =
      Except.ok [⟨-(1 / 2), -(1 / 2), 3 / 2, 3 / 2⟩] :=
  get_anchors_16_16_ratio1_scale32

/-- Concrete run of the anchor generator on a 2 x 2 image at stride 1 with a
single unit base anchor, exposing the flat ordering of the spatial grid. -/
theorem get_anchors_2_2_eval :
    get_anchors 2 2 [(1 : ℝ)] [(1 : ℝ)] 1 =
      Except.ok [⟨-(1 / 4), -(1 / 4), 1 / 4, 1 / 4⟩, ⟨1 / 4, -(1 / 4), 3 / 4, 1 / 4⟩,
        ⟨-(1 / 4), 1 / 4, 1 / 4, 3 / 4⟩, ⟨1 / 4, 1 / 4, 3 / 4, 3 / 4⟩] := by
  have h1 : Real.sqrt ((1 : ℝ) ^ 2 / 1) = 1 := by
    norm_num
  have h2 : pyRound (1 : ℝ) = 1 := by
    rw [show (1 : ℝ) = ((1 : ℤ) : ℝ) by norm_num]
    exact pyRound_intCast 1
  have h3 : ((1 : ℤ) : ℝ) * 1 = (1 : ℝ) := by norm_num
  rw [get_anchors, if_neg (by norm_num)]
  simp only [generate_base_anchors, List.flatMap_cons, List.flatMap_nil, List.map_cons,
    List.map_nil, List.append_nil, h1, h2, h3]
  have hr4 : List.range 4 = [0, 1, 2, 3] := rfl
  norm_num [normalize_bboxes, hr4, h2]

/-- C3: the claim predicts the row-major flat layout, raw index
(row * outW + col) * anchorsPerCell + k.  On a 2 x 2 grid the code instead
stores at raw index 1 the anchor of grid row 1, column 0 (translated by
y = 1, x = 0): np.meshgrid(grid_y, grid_x) produces arrays of shape
(outW, outH) whose ravel runs over columns in the outer loop, so the flat
spatial index is col * outH + row.  The second conjunct records that this
anchor differs from the row-0, column-1 anchor the claim puts at index 1
(which actually sits at index 2), refuting the claimed ordering and the
claimed reshape placement. -/
theorem C3_meshgrid_transposed :
    get_anchors 2 2 [(1 : ℝ)] [(1 : ℝ)] 1 =
      Except.ok [⟨-(1 / 4), -(1 / 4), 1 / 4, 1 / 4⟩, ⟨1 / 4, -(1 / 4), 3 / 4, 1 / 4⟩,
        ⟨-(1 / 4), 1 / 4, 1 / 4, 3 / 4⟩, ⟨1 / 4, 1 / 4, 3 / 4, 3 / 4⟩] ∧
    (⟨1 / 4, -(1 / 4), 3 / 4, 1 / 4⟩ : Box ℝ) ≠ ⟨-(1 / 4), 1 / 4, 1 / 4, 3 / 4⟩ := by
  refine ⟨get_anchors_2_2_eval, ?_⟩
  intro hbox
  have := congrArg Box.y1 hbox
  norm_num at this

/-! Lemmas about the delta tensor writes and the decode. -/

theorem foldl_set_untouched {γ : Type} (f : ℕ × ℕ → γ) :
    ∀ (pos : List (ℕ × ℕ)) (acc : List γ) (i : ℕ), i ∉ pos.map Prod.fst →
      (pos.foldl (fun a p => a.set p.1 (f p)) acc)[i]? = acc[i]?
  | [], _, _, _ => rfl
  | q :: rest, acc, i, hni => by
    rw [List.foldl_cons]
    have h1 : i ∉ rest.map Prod.fst := by
      intro h
      exact hni (List.mem_cons_of_mem _ h)
    have h2 : q.1 ≠ i := by
      intro h
      exact hni (by rw [List.map_cons, h]; exact List.mem_cons_self _ _)
    rw [foldl_set_untouched f rest _ i h1, List.getElem?_set_ne h2]

theorem foldl_set_getElem {γ : Type} (f : ℕ × ℕ → γ) :
    ∀ (pos : List (ℕ × ℕ)) (acc : List γ) (i n : ℕ), (pos.map Prod.fst).Nodup →
      (i, n) ∈ pos → i < acc.length →
      (pos.foldl (fun a p => a.set p.1 (f p)) acc)[i]? = some (f (i, n))
  | [], _, _, _, _, hmem, _ => absurd hmem (List.not_mem_nil _)
  | q :: rest, acc, i, n, hnd, hmem, hlen => by
    rw [List.map_cons, List.nodup_cons] at hnd
    rw [List.foldl_cons]
    rcases List.mem_cons.mp hmem with heq | hmem2
    · have hq : q = (i, n) := heq.symm
      subst hq
      rw [foldl_set_untouched f rest _ i hnd.1]
      exact List.getElem?_set_self hlen
    · exact foldl_set_getElem f rest _ i n hnd.2 hmem2 (by simpa using hlen)

theorem getElem?_zipWith_some {γ δ ε : Type} (f : γ → δ → ε) :
    ∀ (as : List γ) (bs : List δ) (i : ℕ) (a : γ) (b : δ),
      as[i]? = some a → bs[i]? = some b → (List.zipWith f as bs)[i]? = some (f a b)
  | [], _, i, _, _, ha, _ => by simp at ha
  | _ :: _, [], i, _, _, _, hb => by simp at hb
  | x :: xs, y :: ys, 0, a, b, ha, hb => by
    simp only [List.getElem?_cons_zero, Option.some.injEq] at ha hb
    simp [List.zipWith, ha, hb]
  | x :: xs, y :: ys, i + 1, a, b, ha, hb => by
    simp only [List.getElem?_cons_succ] at ha hb
    simpa using getElem?_zipWith_some f xs ys i a b ha hb

theorem bboxOfDelta_deltaOfPair (anc gt : Box ℝ)
    (ha1 : anc.x1 < anc.x2) (ha2 : anc.y1 < anc.y2)
    (hg1 : gt.x1 < gt.x2) (hg2 : gt.y1 < gt.y2) :
    bboxOfDelta anc (deltaOfPair anc gt) = gt := by
  obtain ⟨ay1, ax1, ay2, ax2⟩ := anc
  obtain ⟨gy1, gx1, gy2, gx2⟩ := gt
  simp only at ha1 ha2 hg1 hg2
  have hw : ax2 - ax1 ≠ 0 := sub_ne_zero.mpr (ne_of_gt ha1)
  have hh : ay2 - ay1 ≠ 0 := sub_ne_zero.mpr (ne_of_gt ha2)
  have hex : Real.exp (Real.log ((gx2 - gx1) / (ax2 - ax1))) = (gx2 - gx1) / (ax2 - ax1) :=
    Real.exp_log (div_pos (by linarith) (by linarith))
  have hey : Real.exp (Real.log ((gy2 - gy1) / (ay2 - ay1))) = (gy2 - gy1) / (ay2 - ay1) :=
    Real.exp_log (div_pos (by linarith) (by linarith))
  simp only [bboxOfDelta, deltaOfPair, hex, hey, Box.mk.injEq]
  refine ⟨?_, ?_, ?_, ?_⟩ <;> field_simp <;> ring

/-- C5: encoding the matched ground truth box of a positive anchor into
deltas and decoding back recovers that ground truth box exactly at the
anchor index, for non-degenerate anchor and ground truth boxes (over the
reals the float tolerance is exact equality). -/
theorem C5_encode_decode_roundtrip (anchors gt_boxes : List (Box ℝ)) (pos : List (ℕ × ℕ))
    (i n : ℕ) (anc gtb : Box ℝ)
    (hnd : (pos.map Prod.fst).Nodup) (hmem : (i, n) ∈ pos)
    (hanc : anchors[i]? = some anc) (hgtb : gt_boxes[n]? = some gtb)
    (ha1 : anc.x1 < anc.x2) (ha2 : anc.y1 < anc.y2)
    (hg1 : gtb.x1 < gtb.x2) (hg2 : gtb.y1 < gtb.y2) :
    (get_bboxes_from_deltas anchors (get_deltas_from_bboxes anchors gt_boxes pos))[i]? =
      some gtb := by
  have hi : i < anchors.length := by
    by_contra hno
    rw [List.getElem?_eq_none (le_of_not_lt hno)] at hanc
    cases hanc
  have hgetD_a : anchors.getD i ⟨0, 0, 0, 0⟩ = anc := by
    rw [List.getD_eq_getElem?_getD, hanc]
    rfl
  have hgetD_g : gt_boxes.getD n ⟨0, 0, 0, 0⟩ = gtb := by
    rw [List.getD_eq_getElem?_getD, hgtb]
    rfl
  have hdelta : (get_deltas_from_bboxes anchors gt_boxes pos)[i]? =
      some (deltaOfPair anc gtb) := by
    rw [get_deltas_from_bboxes]
    have := foldl_set_getElem
      (fun p => deltaOfPair (anchors.getD p.1 ⟨0, 0, 0, 0⟩) (gt_boxes.getD p.2 ⟨0, 0, 0, 0⟩))
      pos (List.replicate anchors.length zeroDelta) i n hnd hmem (by simpa using hi)
    rw [this]
    dsimp only
    rw [hgetD_a, hgetD_g]
  rw [get_bboxes_from_deltas, getElem?_zipWith_some bboxOfDelta anchors _ i anc _ hanc hdelta,
    bboxOfDelta_deltaOfPair anc gtb ha1 ha2 hg1 hg2]

/-- C5 witness: one anchor covering a 2 x 2 region matched to the unit
ground truth box; the decode of the encode returns exactly that box at
index 0. -/
theorem C5_encode_decode_roundtrip_witness :
    (get_bboxes_from_deltas [(⟨0, 0, 2, 2⟩ : Box ℝ)]
        (get_deltas_from_bboxes [(⟨0, 0, 2, 2⟩ : Box ℝ)] [⟨0, 0, 1, 1⟩] [(0, 0)]))[0]? =
      some ⟨0, 0, 1, 1⟩ :=
  C5_encode_decode_roundtrip [⟨0, 0, 2, 2⟩] [⟨0, 0, 1, 1⟩] [(0, 0)] 0 0 ⟨0, 0, 2, 2⟩
    ⟨0, 0, 1, 1⟩ (by decide) (by decide) rfl rfl two_pos two_pos one_pos one_pos

/-- Forced positive membership at the sampler core: if ground truth column n
(n < M <= P) is the row argmax of at least one anchor, then the first anchor
achieving the column-n maximum is masked, every masked index precedes every
unmasked index in the reversed argsort, at most M indices are masked, and
hence that anchor lands inside the first P sorted indices and appears in the
positive output, paired with its own row argmax. -/
theorem samplePosNeg_forced_mem (iou_map : List (List α)) (M P n : ℕ)
    (hMP : M ≤ P) (hn : n < M) (hmem : n ∈ rowArgmaxes iou_map) :
    (argmaxList (columnOf iou_map n),
      (rowArgmaxes iou_map).getD (argmaxList (columnOf iou_map n)) 0)
      ∈ (samplePosNeg iou_map M P).1 := by
  set N := iou_map.length with hN
  set j := argmaxList (columnOf iou_map n) with hj
  have hiou_ne : iou_map ≠ [] := by
    intro h0
    rw [h0] at hmem
    simp [rowArgmaxes] at hmem
  have hNpos : 0 < N := List.length_pos.mpr hiou_ne
  have hcol_len : (columnOf iou_map n).length = N := by
    rw [columnOf, List.length_map]
  have hcol_ne : columnOf iou_map n ≠ [] := by
    intro h0
    have hlen0 := hcol_len
    rw [h0] at hlen0
    simp at hlen0
    omega
  have hjN : j < N := by
    have := argmaxList_lt_length hcol_ne
    rwa [hcol_len] at this
  have hmask : (forcedMask iou_map M).getD j false = true := by
    rw [forcedMask]
    exact foldMask_sets (fun k => argmaxList (columnOf iou_map k)) (List.range M) _ n
      (List.mem_range.mpr hn) hmem (by simpa using hjN)
  have hkeyj : sortKey iou_map M j = ⊤ := by
    rw [sortKey, if_pos hmask]
  set s := argsortDesc (sortKey iou_map M) (List.range N) with hs
  have hperm : s.Perm (List.range N) := argsortDesc_perm _ _
  have hjmem : j ∈ s := hperm.mem_iff.mpr (List.mem_range.mpr hjN)
  have hnodup : s.Nodup := hperm.nodup_iff.mpr (List.nodup_range N)
  have hsorted := sorted_argsortDesc (sortKey iou_map M) (List.range N)
  set T := (List.range N).filter (fun i => (forcedMask iou_map M).getD i false) with hT
  have hTsub : T ⊆ (List.range M).map (fun k => argmaxList (columnOf iou_map k)) := by
    intro x hx
    have hx2 := (List.mem_filter.mp hx).2
    have hx3 : (forcedMask iou_map M).getD x false = true := by simpa using hx2
    rw [forcedMask] at hx3
    rcases foldMask_true_source (fun k => argmaxList (columnOf iou_map k)) (List.range M)
        _ x hx3 with hfalse | ⟨k, hk, rfl⟩
    · rw [getD_replicate_false] at hfalse
      cases hfalse
    · exact List.mem_map_of_mem _ hk
  have hTnodup : T.Nodup := List.Nodup.sublist (List.filter_sublist _) (List.nodup_range N)
  have hTlen : T.length ≤ M := by
    have := (List.subperm_of_subset hTnodup hTsub).length_le
    simpa using this
  obtain ⟨s₁, s₂, hsplit⟩ := List.append_of_mem hjmem
  have hcross : ∀ a ∈ s₁, sortKey iou_map M a = ⊤ := by
    intro a ha
    have hp := hsorted
    rw [← hs, hsplit] at hp
    have hle := (List.pairwise_append.mp hp).2.2 a ha j (List.mem_cons_self _ _)
    rw [hkeyj] at hle
    exact top_le_iff.mp hle
  have hmask_mem : ∀ a ∈ s₁ ++ [j], a ∈ T := by
    intro a ha
    have haS : a ∈ s := by
      rw [hsplit]
      rcases List.mem_append.mp ha with h1 | h1
      · exact List.mem_append.mpr (Or.inl h1)
      · rw [List.mem_singleton] at h1
        exact List.mem_append.mpr (Or.inr (h1 ▸ List.mem_cons_self _ _))
    have haN : a ∈ List.range N := hperm.mem_iff.mp haS
    have hamask : (forcedMask iou_map M).getD a false = true := by
      rcases List.mem_append.mp ha with h1 | h1
      · have hkey := hcross a h1
        rw [sortKey] at hkey
        by_cases hm : (forcedMask iou_map M).getD a false
        · exact hm
        · rw [if_neg hm] at hkey
          exact absurd hkey (WithTop.coe_ne_top)
      · rw [List.mem_singleton] at h1
        rw [h1]
        exact hmask
    exact List.mem_filter.mpr ⟨haN, by simpa using hamask⟩
  have hs1nodup : (s₁ ++ [j]).Nodup := by
    have hsub : (s₁ ++ [j]).Sublist (s₁ ++ j :: s₂) :=
      List.Sublist.append_left ((List.nil_sublist s₂).cons₂ j) s₁
    exact List.Nodup.sublist hsub (hsplit ▸ hnodup)
  have hlen1 : (s₁ ++ [j]).length ≤ T.length :=
    (List.subperm_of_subset hs1nodup hmask_mem).length_le
  have hs1len : s₁.length < P := by
    have h2 : s₁.length + 1 ≤ M := by simpa using le_trans hlen1 hTlen
    omega
  have hjtake : j ∈ s.take P := by
    have hidx : (s.take P)[s₁.length]? = some j := by
      rw [List.getElem?_take_of_lt hs1len, hsplit,
        List.getElem?_append_right (le_refl s₁.length)]
      simp
    exact List.getElem?_mem hidx
  rw [samplePosNeg_fst]
  refine List.mem_map.mpr ⟨j, ?_, rfl⟩
  rw [sortedAnchorIndices]
  exact hjtake

/-- C4 counterexample: one full-image anchor, two ground truth boxes with
IoU 1 and 1/2 against it.  Both boxes overlap the anchor, so the claim
demands that ground truth box 1 receive a positive anchor; but box 1 is the
row argmax of no anchor, the masking loop skips it via the continue branch,
and every positive pair carries the row argmax index 0: the returned
positive list [(0, 0)] assigns no anchor to box 1. -/
theorem C4_counterexample :
    get_positive_and_negative_anchors
        [(⟨0, 0, 1, 1⟩ : Box ℚ)] [⟨0, 0, 1, 1⟩, ⟨0, 0, 1/2, 1⟩] 64 =
      Except.ok ([(0, 0)], []) ∧
    calculate_iou (⟨0, 0, 1, 1⟩ : Box ℚ) ⟨0, 0, 1/2, 1⟩ = some (1/2) := by
  constructor <;> with_unfolding_all decide

/-- C4 amended: a ground truth box receives its forced positive only when at
least one anchor has it as row argmax; in that case (and with at most 64
ground truth boxes) the first anchor attaining its column maximum is always
selected positive, paired with that anchor row argmax index, which can
differ from the box in question. -/
theorem C4_amended_forced_positive (anchors gt_boxes : List (Box α)) (pos : List (ℕ × ℕ))
    (neg : List ℕ) (n : ℕ) (hgt : gt_boxes ≠ []) (hM : gt_boxes.length ≤ 64)
    (hn : n < gt_boxes.length)
    (hmem : n ∈ rowArgmaxes (generate_iou_map anchors gt_boxes))
    (h : get_positive_and_negative_anchors anchors gt_boxes 64 = Except.ok (pos, neg)) :
    (argmaxList (columnOf (generate_iou_map anchors gt_boxes) n),
      (rowArgmaxes (generate_iou_map anchors gt_boxes)).getD
        (argmaxList (columnOf (generate_iou_map anchors gt_boxes) n)) 0) ∈ pos := by
  have hpn := get_positive_and_negative_anchors_ok hgt h
  have hpos : pos = (samplePosNeg (generate_iou_map anchors gt_boxes) gt_boxes.length 64).1 :=
    congrArg Prod.fst hpn
  rw [hpos]
  exact samplePosNeg_forced_mem _ _ _ _ hM hn hmem

/-- C4 witness: the amended statement instantiated on the concrete pair of
ground truth boxes of the counterexample; column 0 is the row argmax of the
single anchor, and its forced positive pair (0, 0) is in the output. -/
theorem C4_amended_forced_positive_witness :
    (argmaxList (columnOf (generate_iou_map [(⟨0, 0, 1, 1⟩ : Box ℚ)]
        [⟨0, 0, 1, 1⟩, ⟨0, 0, 1/2, 1⟩]) 0),
      (rowArgmaxes (generate_iou_map [(⟨0, 0, 1, 1⟩ : Box ℚ)]
        [⟨0, 0, 1, 1⟩, ⟨0, 0, 1/2, 1⟩])).getD
        (argmaxList (columnOf (generate_iou_map [(⟨0, 0, 1, 1⟩ : Box ℚ)]
          [⟨0, 0, 1, 1⟩, ⟨0, 0, 1/2, 1⟩]) 0)) 0) ∈ [((0 : ℕ), (0 : ℕ))] :=
  C4_amended_forced_positive [⟨0, 0, 1, 1⟩] [⟨0, 0, 1, 1⟩, ⟨0, 0, 1/2, 1⟩] [(0, 0)] [] 0
    (by with_unfolding_all decide) (by decide) (by decide)
    (by with_unfolding_all decide) (by with_unfolding_all decide)
